import Mathlib

/-!
Shallow embedding of the `parameterx` crate: a heterogeneous, string-keyed
value container (`Parameters`, backed by a `BTreeMap<String, Arc<dyn
ParameterValue>>`), its capability trait `ParameterValue`, and the error
taxonomy `ParameterError`.

Modelling choices:

* The `BTreeMap` is embedded as an association list kept strictly sorted by
  key (`insertSorted` models `BTreeMap::insert`: replace on equal key, keep
  ascending key order).  Iteration over the embedded list is exactly
  `BTreeMap` iteration order.
* A stored value is a `DynValue`: the universe of concrete Rust types that
  qualify for the blanket `impl<T> ParameterValue for T` (Send + Sync +
  Debug + Clone + ToString + Any).  `tI32`, `tBool`, `tString` model `i32`,
  `bool`, `String`; `tOther name` models any further qualifying concrete
  type, identified by its static type name and observed (as the container
  observes it) through its `ToString` rendering.
* An `Arc<dyn ParameterValue>` handle is a `Handle`: an allocation identity
  (`id`, the address of the `Arc` allocation) together with the value.
  `clone_arc` (`Arc::new(self.clone())`) allocates a fresh identity carrying
  an equal value; allocation is made explicit by threading a counter of
  fresh identities, so that deep-clone (fresh handles) is distinguishable
  from reference sharing (equal ids).
* Fallible operations return `Except ParameterError`.
-/

/-- The static type identity of a stored value (`TypeId` of the concrete
type behind the erased handle). -/
inductive DynType : Type where
  | tI32 : DynType
  | tBool : DynType
  | tString : DynType
  | tOther : String → DynType
deriving DecidableEq, Repr

/-- The Lean carrier of each concrete Rust type in the universe.  A custom
qualifying type (`tOther`) is observed by the container only through its
`ToString` rendering, so its carrier is that rendering. -/
def DynType.carrier : DynType → Type
  | .tI32 => Int
  | .tBool => Bool
  | .tString => String
  | .tOther _ => String

/-- A type-erased stored value: one concrete value of the universe of types
qualifying for the blanket `ParameterValue` implementation. -/
inductive DynValue : Type where
  | vI32 : Int → DynValue
  | vBool : Bool → DynValue
  | vString : String → DynValue
  | vOther : String → String → DynValue
deriving DecidableEq, Repr

/-- The dynamic type of a stored value, as checked by `Any::downcast_ref`. -/
def DynValue.dynType : DynValue → DynType
  | .vI32 _ => .tI32
  | .vBool _ => .tBool
  | .vString _ => .tString
  | .vOther name _ => .tOther name

/-- Pack a concrete value of type `T` into the erased representation
(what `Arc::new(value)` stores behind `dyn ParameterValue`). -/
def DynValue.pack : (T : DynType) → T.carrier → DynValue
  | .tI32, n => .vI32 n
  | .tBool, b => .vBool b
  | .tString, s => .vString s
  | .tOther name, s => .vOther name s

/-- `value.as_any().downcast_ref::<T>()`: succeeds exactly when the dynamic
type of the stored value is `T`. -/
def DynValue.downcast : (T : DynType) → DynValue → Option T.carrier
  | .tI32, .vI32 n => some n
  | .tBool, .vBool b => some b
  | .tString, .vString s => some s
  | .tOther name, .vOther name' s => if name = name' then some s else none
  | .tI32, _ => none
  | .tBool, _ => none
  | .tString, _ => none
  | .tOther _, _ => none

/-- The blanket implementation's `to_string` (`self.to_string()` via the
concrete type's `ToString`): decimal rendering for `i32`, `true`/`false`
for `bool`, identity for `String`, and the custom type's own rendering. -/
def DynValue.render : DynValue → String
  | .vI32 n => toString n
  | .vBool b => if b then "true" else "false"
  | .vString s => s
  | .vOther _ s => s

/-- The error taxonomy of `src/error.rs` (`ParameterError`).  The boxed
dynamic causes are modelled by their messages. -/
inductive ParameterError : Type where
  | KeyNotFound : String → ParameterError
  | ConversionFailed : String → ParameterError
  | TypeMismatch : String → String → ParameterError
deriving DecidableEq, Repr

/-- Whether an error is the `TypeMismatch` variant. -/
def ParameterError.isTypeMismatch : ParameterError → Bool
  | .TypeMismatch _ _ => true
  | _ => false

/-- A minimal model of `serde_json::Value`; `Parameters::to_json` only ever
builds the `obj` shape. -/
inductive Json : Type where
  | null : Json
  | bool : Bool → Json
  | num : Int → Json
  | str : String → Json
  | obj : List (String × Json) → Json

/-- The message of the error produced by the default (blanket)
`ParameterValue::to_json` body in `src/value/traits.rs`. -/
def jsonNotImplementedMsg : String :=
  "JSON serialization not implemented for this type"

/-- The blanket implementation never overrides the default `to_json` body,
so for every automatically qualifying type it unconditionally fails with
`ConversionFailed` (`src/value/traits.rs` lines 15-19). -/
def DynValue.to_json (_ : DynValue) : Except ParameterError Json :=
  .error (.ConversionFailed jsonNotImplementedMsg)

/-- An `Arc<dyn ParameterValue>` handle: the identity of the `Arc`
allocation plus the stored value. -/
structure Handle : Type where
  id : Nat
  val : DynValue
deriving DecidableEq, Repr

/-- `clone_arc` of the blanket implementation: `Arc::new(self.clone())` —
a fresh allocation holding an equal value.  `ctr` is the next fresh
allocation identity; the successor is returned alongside. -/
def Handle.clone_arc (h : Handle) (ctr : Nat) : Handle × Nat :=
  (⟨ctr, h.val⟩, ctr + 1)

/-- Lexicographic order on codepoint sequences: for valid UTF-8 this is the
same order as Rust's byte-wise `Ord` on `String`, the order of the
`BTreeMap` keys. -/
def charListLt : List Char → List Char → Bool
  | [], [] => false
  | [], _ :: _ => true
  | _ :: _, [] => false
  | c :: cs, d :: ds =>
    if c.toNat < d.toNat then true
    else if d.toNat < c.toNat then false
    else charListLt cs ds

/-- The `Ord` relation of the `BTreeMap<String, _>` keys. -/
def strLt (a b : String) : Bool := charListLt a.data b.data

/-- Lookup in an association list by key (`BTreeMap::get`). -/
def lookupKey {α : Type} : List (String × α) → String → Option α
  | [], _ => none
  | (k, v) :: rest, k' => if k' = k then some v else lookupKey rest k'

/-- Insertion into a key-sorted association list (`BTreeMap::insert`):
replaces the entry when the key is already present, otherwise places the
new entry at its ordered position. -/
def insertSorted {α : Type} (k : String) (v : α) : List (String × α) → List (String × α)
  | [] => [(k, v)]
  | (k', v') :: rest =>
    if strLt k k' then (k, v) :: (k', v') :: rest
    else if k = k' then (k, v) :: rest
    else (k', v') :: insertSorted k v rest

/-- The container of `src/parameters/core.rs`:
`map: BTreeMap<String, Arc<dyn ParameterValue>>`, embedded as the sorted
entry list the tree iterates as. -/
structure Parameters : Type where
  map : List (String × Handle)
deriving DecidableEq, Repr

/-- `Parameters::new()` / `Default`: the empty container. -/
def Parameters.new : Parameters := ⟨[]⟩

/-- `Parameters::insert(key, value)`: wraps the value in a fresh `Arc`
(allocation identity `id`) and inserts it, overwriting any entry at the
key. -/
def Parameters.insert (p : Parameters) (k : String) (v : DynValue) (id : Nat) : Parameters :=
  ⟨insertSorted k ⟨id, v⟩ p.map⟩

/-- `Parameters::with(key, value)`: insert, then return the container. -/
def Parameters.with (p : Parameters) (k : String) (v : DynValue) (id : Nat) : Parameters :=
  p.insert k v id

/-- `Parameters::get::<T>(key)`:
`self.map.get(key).and_then(|value| value.as_any().downcast_ref::<T>())`. -/
def Parameters.get (T : DynType) (p : Parameters) (k : String) : Option T.carrier :=
  (lookupKey p.map k).bind (fun h => h.val.downcast T)

/-- `Parameters::get_required::<T>(key)`:
`self.get(key).ok_or_else(|| ParameterError::KeyNotFound(key))`. -/
def Parameters.get_required (T : DynType) (p : Parameters) (k : String) :
    Except ParameterError T.carrier :=
  match p.get T k with
  | some v => .ok v
  | none => .error (.KeyNotFound k)

/-- `Parameters::get_string(key)`: `self.map.get(key).map(|v| v.to_string())`. -/
def Parameters.get_string (p : Parameters) (k : String) : Option String :=
  (lookupKey p.map k).map (fun h => h.val.render)

/-- `Parameters::contains_key(key)`. -/
def Parameters.contains_key (p : Parameters) (k : String) : Bool :=
  (lookupKey p.map k).isSome

/-- `Parameters::try_get::<T>(key)`.  The Rust signature demands the
instance `T: TryFrom<String>` (with an `Error: Error + Send + Sync`); the
instance is passed explicitly as the conversion `conv`, errors rendered as
their messages:
`self.get_string(key).ok_or(KeyNotFound)?.try_into().map_err(ConversionFailed)`. -/
def Parameters.try_get {β : Type} (conv : String → Except String β)
    (p : Parameters) (k : String) : Except ParameterError β :=
  match p.get_string k with
  | none => .error (.KeyNotFound k)
  | some s =>
    match conv s with
    | .ok x => .ok x
    | .error e => .error (.ConversionFailed e)

/-- Which types of the universe satisfy the bound of `Parameters::try_get`
in Rust std, i.e. have an `impl TryFrom<String>` whose error type implements
`Error + Send + Sync`: `String` does (the blanket
`impl<T, U: Into<T>> TryFrom<U> for T` with `Error = Infallible`), while
`i32` and `bool` have no `TryFrom<String>` impl at all — numeric and boolean
parsing exist only through `FromStr`, which `try_get` does not use. -/
def hasTryFromString : DynType → Bool
  | .tString => true
  | _ => false

/-- The conversion instance behind `hasTryFromString .tString`:
`String -> String` via `Into`, infallible. -/
def stringTryFromString : String → Except String String := fun s => .ok s

/-- `Parameters::merge(other)`: `self.map.extend(other.map)` — inserts every
entry of `other` (in its iteration order) into `self`, overwriting on key
collision; handles are moved, not re-cloned. -/
def Parameters.merge (p other : Parameters) : Parameters :=
  ⟨other.map.foldl (fun m kv => insertSorted kv.1 kv.2 m) p.map⟩

/-- `Parameters::keys()`: the keys in `BTreeMap` iteration order. -/
def Parameters.keysList (p : Parameters) : List String :=
  p.map.map Prod.fst

/-- `Parameters::iter()`: the `(key, handle)` pairs in `BTreeMap` iteration
order. -/
def Parameters.iterList (p : Parameters) : List (String × Handle) :=
  p.map

/-- The entries as the container's observable content: keys with the stored
values, handle identities erased. -/
def Parameters.entries (p : Parameters) : List (String × DynValue) :=
  p.map.map (fun kv => (kv.1, kv.2.val))

/-- `impl Clone for Parameters`: rebuild the map entry by entry, replacing
each handle by `v.clone_arc()` — a deep clone into fresh allocations.
Allocation identities are drawn from `ctr` upward. -/
def cloneEntries : List (String × Handle) → Nat → List (String × Handle) × Nat
  | [], ctr => ([], ctr)
  | (k, h) :: rest, ctr =>
    let (h', ctr') := h.clone_arc ctr
    let (rest', ctr'') := cloneEntries rest ctr'
    ((k, h') :: rest', ctr'')

/-- `Parameters::clone()`, with `ctr` the next fresh allocation identity. -/
def Parameters.cloneP (p : Parameters) (ctr : Nat) : Parameters × Nat :=
  let (m, ctr') := cloneEntries p.map ctr
  (⟨m⟩, ctr')

/-- Sequential aggregation of `to_json` over the entries, stopping at the
first failure (the loop body `map.insert(key.clone(), value.to_json()?)`). -/
def jsonEntries : List (String × Handle) → Except ParameterError (List (String × Json))
  | [] => .ok []
  | (k, h) :: rest =>
    match h.val.to_json with
    | .error e => .error e
    | .ok j =>
      match jsonEntries rest with
      | .error e => .error e
      | .ok js => .ok ((k, j) :: js)

/-- `Parameters::to_json()`: one JSON object keyed like the container,
or the first per-value failure. -/
def Parameters.to_json (p : Parameters) : Except ParameterError Json :=
  match jsonEntries p.map with
  | .error e => .error e
  | .ok js => .ok (.obj js)

/-- Modelled from the spec: `contains_type::<T>(key)` is absent from the
source files under `src/` (the spec documents it alongside `contains_key`);
following the spec's words, it is true exactly when the key exists and the
stored value's dynamic type is exactly `T`. -/
def Parameters.contains_type (T : DynType) (p : Parameters) (k : String) : Bool :=
  match lookupKey p.map k with
  | some h => h.val.dynType = T
  | none => false

/-- The invariant of the `BTreeMap` embedding: entries strictly ascending
by key. -/
def Parameters.SortedKeys (p : Parameters) : Prop :=
  List.Pairwise (fun a b => strLt a.1 b.1 = true) p.map

/-- Containers reachable through the public construction surface:
`new`, `insert` (also `with`, the builder's `add` and the macro, which all
delegate to `insert`), `merge`, and `clone`. -/
inductive Parameters.Built : Parameters → Prop where
  | new : Parameters.Built Parameters.new
  | insert (p : Parameters) (k : String) (v : DynValue) (id : Nat) :
      Parameters.Built p → Parameters.Built (p.insert k v id)
  | merge (p q : Parameters) :
      Parameters.Built p → Parameters.Built q → Parameters.Built (p.merge q)
  | clone (p : Parameters) (ctr : Nat) :
      Parameters.Built p → Parameters.Built (p.cloneP ctr).1

theorem lookup_insertSorted {α : Type} (k : String) (v : α) (m : List (String × α))
    (k' : String) :
    lookupKey (insertSorted k v m) k' = if k' = k then some v else lookupKey m k' := by
  induction m with
  | nil => simp [insertSorted, lookupKey]
  | cons hd tl ih =>
    obtain ⟨k0, v0⟩ := hd
    simp only [insertSorted]
    split
    · simp [lookupKey]
    · split
      · rename_i h1 h2
        subst h2
        by_cases h3 : k' = k <;> simp [lookupKey, h3]
      · rename_i h1 h2
        simp only [lookupKey, ih]
        by_cases h3 : k' = k0
        · subst h3
          have hk : ¬ (k' = k) := fun hh => h2 hh.symm
          simp [hk]
        · simp [h3]

theorem downcast_pack (T : DynType) (x : T.carrier) :
    (DynValue.pack T x).downcast T = some x := by
  cases T <;> simp [DynValue.pack, DynValue.downcast]

theorem downcast_none_of_ne (T : DynType) (v : DynValue) (h : v.dynType ≠ T) :
    v.downcast T = none := by
  cases T <;> cases v <;> simp_all [DynValue.dynType, DynValue.downcast, eq_comm]

theorem downcast_isSome_iff (T : DynType) (v : DynValue) :
    (v.downcast T).isSome ↔ v.dynType = T := by
  cases T <;> cases v <;> simp [DynValue.dynType, DynValue.downcast]
  rename_i a b c
  by_cases h : a = b
  · subst h; simp
  · simp [h]
    exact fun hh => h hh.symm

/-- Claim C1: inserting `(k, v)` of any concrete type `T` of the universe and
then reading back with `get::<T>(k)` yields `some` value equal to `v`. -/
theorem insert_then_get (T : DynType) (x : T.carrier) (p : Parameters)
    (k : String) (id : Nat) :
    (p.insert k (DynValue.pack T x) id).get T k = some x := by
  simp [Parameters.insert, Parameters.get, lookup_insertSorted, downcast_pack]

theorem charListLt_cons_iff {x y : Char} {xs ys : List Char} :
    charListLt (x :: xs) (y :: ys) = true ↔
      x.toNat < y.toNat ∨ (x.toNat = y.toNat ∧ charListLt xs ys = true) := by
  simp only [charListLt]
  by_cases h1 : x.toNat < y.toNat
  · simp [h1]
  · by_cases h2 : y.toNat < x.toNat
    · rw [if_neg h1, if_pos h2]
      constructor
      · intro h
        simp at h
      · rintro (h | ⟨h, _⟩) <;> omega
    · have h3 : x.toNat = y.toNat := by omega
      rw [if_neg h1, if_neg h2]
      simp [h3]

theorem charListLt_trans {a b c : List Char} (hab : charListLt a b = true)
    (hbc : charListLt b c = true) : charListLt a c = true := by
  induction a generalizing b c with
  | nil =>
    cases b with
    | nil => simp [charListLt] at hab
    | cons y ys =>
      cases c with
      | nil => simp [charListLt] at hbc
      | cons z zs => simp [charListLt]
  | cons x xs ih =>
    cases b with
    | nil => simp [charListLt] at hab
    | cons y ys =>
      cases c with
      | nil => simp [charListLt] at hbc
      | cons z zs =>
        rcases charListLt_cons_iff.mp hab with h1 | ⟨h1, h1'⟩ <;>
          rcases charListLt_cons_iff.mp hbc with h2 | ⟨h2, h2'⟩ <;>
          apply charListLt_cons_iff.mpr
        · exact Or.inl (by omega)
        · exact Or.inl (by omega)
        · exact Or.inl (by omega)
        · exact Or.inr ⟨by omega, ih h1' h2'⟩

theorem charListLt_irrefl (a : List Char) : charListLt a a = false := by
  induction a with
  | nil => rfl
  | cons x xs ih =>
    rw [Bool.eq_false_iff]
    intro h
    rcases charListLt_cons_iff.mp h with h1 | ⟨_, h2⟩
    · omega
    · rw [ih] at h2
      exact Bool.false_ne_true h2

theorem charListLt_trichotomy (a b : List Char) :
    charListLt a b = true ∨ a = b ∨ charListLt b a = true := by
  induction a generalizing b with
  | nil =>
    cases b with
    | nil => exact Or.inr (Or.inl rfl)
    | cons y ys => exact Or.inl rfl
  | cons x xs ih =>
    cases b with
    | nil => exact Or.inr (Or.inr rfl)
    | cons y ys =>
      rcases Nat.lt_trichotomy x.toNat y.toNat with h | h | h
      · exact Or.inl (charListLt_cons_iff.mpr (Or.inl h))
      · have hxy : x = y := by
          apply Char.eq_of_val_eq
          exact UInt32.toNat.inj h
        rcases ih ys with h2 | h2 | h2
        · exact Or.inl (charListLt_cons_iff.mpr (Or.inr ⟨h, h2⟩))
        · exact Or.inr (Or.inl (by rw [hxy, h2]))
        · exact Or.inr (Or.inr (charListLt_cons_iff.mpr (Or.inr ⟨h.symm, h2⟩)))
      · exact Or.inr (Or.inr (charListLt_cons_iff.mpr (Or.inl h)))

theorem strLt_trans {a b c : String} (hab : strLt a b = true) (hbc : strLt b c = true) :
    strLt a c = true := charListLt_trans hab hbc

theorem strLt_irrefl (a : String) : strLt a a = false := charListLt_irrefl a.data

theorem strLt_trichotomy (a b : String) :
    strLt a b = true ∨ a = b ∨ strLt b a = true := by
  rcases charListLt_trichotomy a.data b.data with h | h | h
  · exact Or.inl h
  · refine Or.inr (Or.inl ?_)
    cases a
    cases b
    simp only at h
    rw [h]
  · exact Or.inr (Or.inr h)

theorem strLt_ne {a b : String} (h : strLt a b = true) : a ≠ b := by
  intro heq
  subst heq
  rw [strLt_irrefl] at h
  exact Bool.false_ne_true h

theorem lookupKey_eq_none {α : Type} (l : List (String × α)) (k : String)
    (h : k ∉ l.map Prod.fst) : lookupKey l k = none := by
  induction l with
  | nil => rfl
  | cons hd tl ih =>
    obtain ⟨k0, v0⟩ := hd
    simp only [List.map, List.mem_cons, not_or] at h
    simp [lookupKey, h.1, ih h.2]

theorem mem_insertSorted {α : Type} (k : String) (v : α) (m : List (String × α))
    (x : String × α) (hx : x ∈ insertSorted k v m) : x = (k, v) ∨ x ∈ m := by
  induction m with
  | nil => simpa [insertSorted] using hx
  | cons hd tl ih =>
    obtain ⟨k0, v0⟩ := hd
    simp only [insertSorted] at hx
    split at hx
    · rcases List.mem_cons.mp hx with h | h
      · exact Or.inl h
      · exact Or.inr h
    · split at hx
      · rcases List.mem_cons.mp hx with h | h
        · exact Or.inl h
        · exact Or.inr (List.mem_cons_of_mem _ h)
      · rcases List.mem_cons.mp hx with h | h
        · exact Or.inr (h ▸ List.mem_cons_self _ _)
        · rcases ih h with h' | h'
          · exact Or.inl h'
          · exact Or.inr (List.mem_cons_of_mem _ h')

theorem pairwise_insertSorted {α : Type} (k : String) (v : α) (m : List (String × α))
    (hp : List.Pairwise (fun a b => strLt a.1 b.1 = true) m) :
    List.Pairwise (fun a b => strLt a.1 b.1 = true) (insertSorted k v m) := by
  induction m with
  | nil => simp [insertSorted]
  | cons hd tl ih =>
    obtain ⟨k0, v0⟩ := hd
    rcases List.pairwise_cons.mp hp with ⟨hhd, htl⟩
    simp only [insertSorted]
    split
    · rename_i hlt
      refine List.pairwise_cons.mpr ⟨?_, hp⟩
      intro b hb
      rcases List.mem_cons.mp hb with rfl | hb'
      · exact hlt
      · exact strLt_trans hlt (hhd b hb')
    · split
      · rename_i hlt heq
        subst heq
        exact List.pairwise_cons.mpr ⟨hhd, htl⟩
      · rename_i hlt hne
        have hk0 : strLt k0 k = true := by
          rcases strLt_trichotomy k k0 with h | h | h
          · exact absurd h hlt
          · exact absurd h hne
          · exact h
        refine List.pairwise_cons.mpr ⟨?_, ih htl⟩
        intro b hb
        rcases mem_insertSorted k v tl b hb with rfl | hb'
        · exact hk0
        · exact hhd b hb'

theorem pairwise_foldl_insert {α : Type} (l m : List (String × α))
    (hm : List.Pairwise (fun a b => strLt a.1 b.1 = true) m) :
    List.Pairwise (fun a b => strLt a.1 b.1 = true)
      (l.foldl (fun acc kv => insertSorted kv.1 kv.2 acc) m) := by
  induction l generalizing m with
  | nil => exact hm
  | cons hd tl ih => exact ih _ (pairwise_insertSorted hd.1 hd.2 m hm)

theorem lookup_foldl_insert {α : Type} (l m : List (String × α))
    (h : (l.map Prod.fst).Nodup) (k : String) :
    lookupKey (l.foldl (fun acc kv => insertSorted kv.1 kv.2 acc) m) k
      = (lookupKey l k).or (lookupKey m k) := by
  induction l generalizing m with
  | nil => simp [lookupKey, Option.or]
  | cons hd tl ih =>
    obtain ⟨k0, v0⟩ := hd
    simp only [List.map, List.nodup_cons] at h
    simp only [List.foldl]
    rw [ih (insertSorted k0 v0 m) h.2, lookup_insertSorted]
    by_cases h3 : k = k0
    · subst h3
      rw [lookupKey_eq_none tl k h.1]
      simp [lookupKey, Option.or]
    · simp [lookupKey, h3]

theorem cloneEntries_map_fst (l : List (String × Handle)) (ctr : Nat) :
    ((cloneEntries l ctr).1).map Prod.fst = l.map Prod.fst := by
  induction l generalizing ctr with
  | nil => rfl
  | cons hd tl ih =>
    obtain ⟨k, h⟩ := hd
    simp [cloneEntries, Handle.clone_arc, ih]

theorem pairwise_cloneEntries (l : List (String × Handle)) (ctr : Nat)
    (hp : List.Pairwise (fun a b => strLt a.1 b.1 = true) l) :
    List.Pairwise (fun a b => strLt a.1 b.1 = true) (cloneEntries l ctr).1 := by
  have h1 : List.Pairwise (fun a b => strLt a b = true)
      (((cloneEntries l ctr).1).map Prod.fst) := by
    rw [cloneEntries_map_fst]
    exact List.pairwise_map.mpr hp
  exact List.pairwise_map.mp h1

theorem cloneEntries_content (l : List (String × Handle)) (ctr : Nat) :
    ((cloneEntries l ctr).1).map (fun kv => (kv.1, kv.2.val))
      = l.map (fun kv => (kv.1, kv.2.val)) := by
  induction l generalizing ctr with
  | nil => rfl
  | cons hd tl ih =>
    obtain ⟨k, h⟩ := hd
    simp [cloneEntries, Handle.clone_arc, ih]

theorem cloneEntries_ids_ge (l : List (String × Handle)) (ctr : Nat) :
    ∀ kv ∈ (cloneEntries l ctr).1, ctr ≤ kv.2.id := by
  induction l generalizing ctr with
  | nil => intro kv hkv; simp [cloneEntries] at hkv
  | cons hd tl ih =>
    obtain ⟨k, h⟩ := hd
    intro kv hkv
    simp only [cloneEntries, Handle.clone_arc] at hkv
    rcases List.mem_cons.mp hkv with rfl | hkv'
    · exact le_refl ctr
    · exact le_trans (Nat.le_succ ctr) (ih (ctr + 1) kv hkv')

/-- Claim C2: the per-value `to_json` of every automatically-qualifying type
returns a `ConversionFailed` error, so `Parameters::to_json` on any container
holding at least one value fails with the first per-value `ConversionFailed`
and produces no partial JSON result. -/
theorem to_json_always_fails (v : DynValue) (p : Parameters) (h : p.map ≠ []) :
    v.to_json = .error (.ConversionFailed jsonNotImplementedMsg) ∧
    p.to_json = .error (.ConversionFailed jsonNotImplementedMsg) := by
  refine ⟨rfl, ?_⟩
  cases hm : p.map with
  | nil => exact absurd hm h
  | cons hd tl =>
    obtain ⟨k, hv⟩ := hd
    simp [Parameters.to_json, hm, jsonEntries, DynValue.to_json]

theorem to_json_always_fails_witness :
    (DynValue.vI32 7).to_json = .error (.ConversionFailed jsonNotImplementedMsg) ∧
    (Parameters.new.insert "x" (.vI32 7) 0).to_json
      = .error (.ConversionFailed jsonNotImplementedMsg) :=
  to_json_always_fails (DynValue.vI32 7) (Parameters.new.insert "x" (.vI32 7) 0)
    (by decide)

/-- Claim C3: `merge` is a right-biased union — after `p.merge q` a key maps
to `q`'s handle when `q` contains it and to `p`'s handle otherwise; on the
spec's concrete instance, `{x ↦ 1}` merged with `{x ↦ 2, y ↦ 3}` holds
exactly `{x ↦ 2, y ↦ 3}`. -/
theorem merge_right_biased (p q : Parameters) (h : q.keysList.Nodup) :
    (∀ k, lookupKey (p.merge q).map k = (lookupKey q.map k).or (lookupKey p.map k)) ∧
    ((Parameters.new.insert "x" (.vI32 1) 0).merge
        ((Parameters.new.insert "x" (.vI32 2) 1).insert "y" (.vI32 3) 2)).entries
      = [("x", .vI32 2), ("y", .vI32 3)] := by
  constructor
  · intro k
    exact lookup_foldl_insert q.map p.map h k
  · decide

theorem merge_right_biased_witness :
    ((Parameters.new.insert "x" (.vI32 1) 0).merge
        ((Parameters.new.insert "x" (.vI32 2) 1).insert "y" (.vI32 3) 2)).entries
      = [("x", .vI32 2), ("y", .vI32 3)] :=
  (merge_right_biased (Parameters.new.insert "x" (.vI32 1) 0)
      ((Parameters.new.insert "x" (.vI32 2) 1).insert "y" (.vI32 3) 2)
      (by decide)).2

/-- Claim C4: every container reachable through the public construction
surface has strictly ascending (hence unique) keys: `iter()` enumerates the
entries and `keys()` the keys in ascending lexicographic key order, and no
key occurs twice — inserting an existing key replaces rather than adds. -/
theorem built_keys_sorted (p : Parameters) (h : p.Built) :
    List.Pairwise (fun a b => strLt a.1 b.1 = true) p.iterList ∧
    List.Pairwise (fun a b => strLt a b = true) p.keysList ∧
    p.keysList.Nodup := by
  have hp : List.Pairwise (fun (a b : String × Handle) => strLt a.1 b.1 = true) p.map := by
    induction h with
    | new => simp [Parameters.new]
    | insert q k v id hb ih => exact pairwise_insertSorted k ⟨id, v⟩ q.map ih
    | merge q r hb1 hb2 ih1 ih2 => exact pairwise_foldl_insert r.map q.map ih1
    | clone q ctr hb ih =>
      simpa [Parameters.cloneP] using pairwise_cloneEntries q.map ctr ih
  have hkeys : List.Pairwise (fun a b => strLt a b = true) p.keysList := by
    unfold Parameters.keysList
    exact List.pairwise_map.mpr hp
  exact ⟨hp, hkeys, hkeys.imp (fun hlt => strLt_ne hlt)⟩

theorem built_keys_sorted_witness :
    List.Pairwise (fun a b => strLt a b = true)
      ((Parameters.new.insert "b" (.vI32 1) 0).insert "a" (.vBool true) 1).keysList ∧
    ((Parameters.new.insert "b" (.vI32 1) 0).insert "a" (.vBool true) 1).keysList.Nodup :=
  ⟨(built_keys_sorted _ (.insert _ _ _ _ (.insert _ _ _ _ .new))).2.1,
   (built_keys_sorted _ (.insert _ _ _ _ (.insert _ _ _ _ .new))).2.2⟩

/-- Claim C5: cloning a container deep-clones every stored value: the clone
has the same keys and values, but every handle of the clone is a fresh
allocation, sharing no allocation identity with any handle of the original —
so mutating either container cannot affect the other's entries. -/
theorem cloneP_independent (p : Parameters) (ctr : Nat)
    (h : ∀ kv ∈ p.map, kv.2.id < ctr) :
    (p.cloneP ctr).1.entries = p.entries ∧
    ∀ kv ∈ (p.cloneP ctr).1.map, ∀ kv' ∈ p.map, kv.2.id ≠ kv'.2.id := by
  constructor
  · simpa [Parameters.cloneP, Parameters.entries] using cloneEntries_content p.map ctr
  · intro kv hkv kv' hkv'
    have h1 : ctr ≤ kv.2.id := by
      refine cloneEntries_ids_ge p.map ctr kv ?_
      simpa [Parameters.cloneP] using hkv
    have h2 : kv'.2.id < ctr := h kv' hkv'
    omega

theorem cloneP_independent_witness :
    ((Parameters.new.insert "x" (.vI32 1) 0).cloneP 5).1.entries
      = (Parameters.new.insert "x" (.vI32 1) 0).entries ∧
    ∀ kv ∈ ((Parameters.new.insert "x" (.vI32 1) 0).cloneP 5).1.map,
      ∀ kv' ∈ (Parameters.new.insert "x" (.vI32 1) 0).map, kv.2.id ≠ kv'.2.id :=
  cloneP_independent (Parameters.new.insert "x" (.vI32 1) 0) 5 (by decide)

/-- Claim C7: `get::<U>(k)` is total and returns `none` — both when the key
is absent and when it is present with a dynamic type other than `U` (in this
embedding every function is total, so no panic or error is possible). -/
theorem get_none_absent_or_mismatch (U : DynType) (p : Parameters) (k : String)
    (h : lookupKey p.map k = none ∨
      ∃ hd, lookupKey p.map k = some hd ∧ hd.val.dynType ≠ U) :
    p.get U k = none := by
  rcases h with h | ⟨hd, hl, hne⟩
  · simp [Parameters.get, h]
  · simp [Parameters.get, hl, downcast_none_of_ne U hd.val hne]

theorem get_none_absent_or_mismatch_witness :
    Parameters.get .tBool (Parameters.new.insert "k" (.vI32 5) 0) "k" = none ∧
    Parameters.get .tI32 (Parameters.new.insert "k" (.vI32 5) 0) "missing" = none :=
  ⟨get_none_absent_or_mismatch .tBool _ "k"
      (Or.inr ⟨⟨0, .vI32 5⟩, by decide, by decide⟩),
   get_none_absent_or_mismatch .tI32 _ "missing" (Or.inl (by decide))⟩

/-- Claim C8: `get_required::<T>(k)` answers `KeyNotFound(k)` both when the
key is absent and when it is present with a different dynamic type; its only
error is `KeyNotFound`, and `try_get` never produces `TypeMismatch` either —
no retrieval path returns the `TypeMismatch` variant. -/
theorem get_required_keyNotFound (T : DynType) (p : Parameters) (k : String) :
    (lookupKey p.map k = none → p.get_required T k = .error (.KeyNotFound k)) ∧
    (∀ hd, lookupKey p.map k = some hd → hd.val.dynType ≠ T →
      p.get_required T k = .error (.KeyNotFound k)) ∧
    (∀ e, p.get_required T k = .error e → e = .KeyNotFound k) ∧
    (∀ (β : Type) (conv : String → Except String β) (e : ParameterError),
      Parameters.try_get conv p k = .error e → e.isTypeMismatch = false) := by
  refine ⟨?_, ?_, ?_, ?_⟩
  · intro h
    simp [Parameters.get_required, Parameters.get, h]
  · intro hd hl hne
    simp [Parameters.get_required, Parameters.get, hl,
      downcast_none_of_ne T hd.val hne]
  · intro e he
    unfold Parameters.get_required at he
    cases hg : p.get T k with
    | some v =>
      rw [hg] at he
      simp at he
    | none =>
      rw [hg] at he
      simp at he
      exact he.symm
  · intro β conv e he
    unfold Parameters.try_get at he
    cases hs : p.get_string k with
    | none =>
      rw [hs] at he
      simp at he
      simp [← he, ParameterError.isTypeMismatch]
    | some s =>
      rw [hs] at he
      simp only at he
      cases hc : conv s with
      | ok x =>
        rw [hc] at he
        simp at he
      | error msg =>
        rw [hc] at he
        simp at he
        simp [← he, ParameterError.isTypeMismatch]

theorem get_required_keyNotFound_witness :
    Parameters.get_required .tI32 (Parameters.new.insert "k" (.vBool true) 0) "k"
      = .error (.KeyNotFound "k") :=
  (get_required_keyNotFound .tI32 (Parameters.new.insert "k" (.vBool true) 0) "k").2.1
    ⟨0, .vBool true⟩ (by decide) (by decide)

/-- Claim C9 (spec-modelled operation): `contains_type::<T>(k)` is true
exactly when the key exists in the container and the stored value's dynamic
type is exactly `T`. -/
theorem contains_type_iff (T : DynType) (p : Parameters) (k : String) :
    p.contains_type T k = true ↔
      p.contains_key k = true ∧
      ∃ hd, lookupKey p.map k = some hd ∧ hd.val.dynType = T := by
  cases hl : lookupKey p.map k with
  | none => simp [Parameters.contains_type, Parameters.contains_key, hl]
  | some hd => simp [Parameters.contains_type, Parameters.contains_key, hl]

theorem contains_type_iff_witness :
    (Parameters.new.insert "k" (.vI32 5) 0).contains_type .tI32 "k" = true :=
  (contains_type_iff .tI32 (Parameters.new.insert "k" (.vI32 5) 0) "k").mpr
    ⟨by decide, ⟨0, .vI32 5⟩, by decide, by decide⟩

/-- Claim C10: `to_json()` on the empty container succeeds with the empty
JSON object — no per-value projection is attempted. -/
theorem to_json_empty_ok : Parameters.new.to_json = .ok (.obj []) := rfl

/-- Claim C6: the Rust bound of `try_get` is `T: TryFrom<String>`; `i32` has
no such impl in std (integer parsing exists only through `FromStr`), so
`try_get::<i32>("age")` does not compile and cannot return `Ok(25)` — while
on the absent-key path (where an instance does exist, e.g. `T = String`) the
code does return `KeyNotFound` as the claim says. -/
theorem try_get_i32_no_instance :
    hasTryFromString .tI32 = false ∧
    hasTryFromString .tString = true ∧
    Parameters.try_get stringTryFromString Parameters.new "age"
      = .error (.KeyNotFound "age") :=
  ⟨rfl, rfl, rfl⟩
